import Mathlib

/-!
Shallow embedding of the model-tier selection module of this repository
(the "Intelligent model selection for specialized subagents" source file:
`tierToThinkingLevel`, `normalizeModelId`, `tierPatterns`, `penaltyPatterns`,
`isUnstableModelId`, `isKnownMajorProvider`, `scoreModelForTier`,
`sanitizeVersionString`, `parseVersionParts`, `compareVersionParts`,
`bestTierPatternMatch`, `extractClaudeFamilyVersion`, `extractGptVersion`,
`resolveBestAvailable`, `selectSubagentModel`).

Strings are modelled as Lean `String` values and all JavaScript regular
expressions used by the source are hand-compiled into explicit, executable
matchers over `List Char`.  Case-insensitive matching (`i` flag) is modelled
by lower-casing the haystack with ASCII `Char.toLower` (all ids and patterns
of interest are ASCII).  The ambient model registry is passed explicitly
as a list of candidates, each carrying the `provider` and `id` fields the
selector reads from the registry's `Model` objects.
-/

/-- Capability tier requested by a subagent (source type `ModelTier`). -/
inductive ModelTier
  | complex
  | standard
  | simple
deriving DecidableEq

/-- Reasoning-effort level (source union type of `thinkingLevel`). -/
inductive ThinkingLevel
  | low
  | medium
  | high
deriving DecidableEq

/-- Source `tierToThinkingLevel`: fixed tier-to-effort mapping. -/
def tierToThinkingLevel : ModelTier → ThinkingLevel
  | .complex => .high
  | .standard => .medium
  | .simple => .low

/-- Projection of the registry's `Model` objects actually read by the
selector: the `provider` and `id` string fields. -/
structure CandidateModel where
  provider : String
  id : String
deriving DecidableEq

/-- JavaScript whitespace class `\s` (also the character set removed by
`String.prototype.trim`): space, tab, line terminators, and the Unicode
space separators. -/
def isJsSpace (c : Char) : Bool :=
  decide (c.toNat = 32 ∨ c.toNat = 9 ∨ c.toNat = 10 ∨ c.toNat = 13 ∨
    c.toNat = 11 ∨ c.toNat = 12 ∨ c.toNat = 0xa0 ∨ c.toNat = 0x1680 ∨
    (0x2000 ≤ c.toNat ∧ c.toNat ≤ 0x200a) ∨ c.toNat = 0x2028 ∨
    c.toNat = 0x2029 ∨ c.toNat = 0x202f ∨ c.toNat = 0x205f ∨
    c.toNat = 0x3000 ∨ c.toNat = 0xfeff)

/-- JavaScript line terminators (the characters `.` does not match). -/
def isLineTerm (c : Char) : Bool :=
  decide (c.toNat = 10 ∨ c.toNat = 13 ∨ c.toNat = 0x2028 ∨ c.toNat = 0x2029)

/-- Character class `[-_ ]` used by the token-boundary patterns. -/
def isSepDash (c : Char) : Bool :=
  decide (c = '-' ∨ c = '_' ∨ c = ' ')

/-- Character class `[._-]` used by the version patterns and splits. -/
def isVerSep (c : Char) : Bool :=
  decide (c = '.' ∨ c = '_' ∨ c = '-')

/-- Character class `\d`, i.e. `[0-9]`. -/
def isDig (c : Char) : Bool :=
  decide (48 ≤ c.toNat ∧ c.toNat ≤ 57)

/-- Lower-cased character list of a string (models the `i` regex flag and
`toLowerCase`, ASCII-faithfully). -/
def lowerChars (s : String) : List Char :=
  s.data.map Char.toLower

/-- Source `normalizeModelId`: lower-case and remove all whitespace
(`id.toLowerCase().replace(/\s+/g, '')`). -/
def normalizeModelId (id : String) : String :=
  String.mk ((id.data.map Char.toLower).filter (fun c => !isJsSpace c))

/-- Does the token end at a boundary here: end of string or `[-_ ]`?
Models the trailing `(?:$|[-_ ])` group of the family-token regexes. -/
def tokenEndOk : List Char → Bool
  | [] => true
  | c :: _ => isSepDash c

/-- Token appears exactly at this position with a right boundary. -/
def tokenAt (tok : List Char) (cs : List Char) : Bool :=
  tok.isPrefixOf cs && tokenEndOk (cs.drop tok.length)

/-- Token appears at some later position preceded by a `[-_ ]` character.
Models the `(?:^|[-_ ])` alternative that consumes a separator. -/
def tokenAfterSep (tok : List Char) : List Char → Bool
  | [] => false
  | c :: rest => (isSepDash c && tokenAt tok rest) || tokenAfterSep tok rest

/-- Test of the family-token regexes `(?:^|[-_ ])tok(?:$|[-_ ])` with the
`i` flag (used for `opus`, `sonnet`, `haiku`). -/
def tokenTest (tok : String) (s : String) : Bool :=
  let cs := lowerChars s
  tokenAt tok.data cs || tokenAfterSep tok.data cs

/-- Case-sensitive substring occurrence over character lists. -/
def containsSub (needle : List Char) : List Char → Bool
  | [] => needle.isEmpty
  | c :: rest => needle.isPrefixOf (c :: rest) || containsSub needle rest

/-- Test of a case-insensitive plain-substring regex such as `/flash/i`,
`/preview/i`, `/experimental/i`, `/beta/i`, `/openai|anthropic|google/i`
(one alternative at a time). -/
def subTest (needle : String) (s : String) : Bool :=
  containsSub needle.data (lowerChars s)

/-- Generic position scanner: does the predicate hold at some suffix? -/
def scanAny (p : List Char → Bool) : List Char → Bool
  | [] => p []
  | c :: rest => p (c :: rest) || scanAny p rest

/-- Match of `gpt[-_ ]?5` anchored at this position.  The `complex` tier's
pattern additionally carries an optional suffix `(?:[._-]\d+)?`, which can
never cause a `test` that would otherwise succeed to fail, so both tiers'
gpt patterns have the same test semantics. -/
def gpt5At (cs : List Char) : Bool :=
  ['g', 'p', 't'].isPrefixOf cs &&
    (match cs.drop 3 with
     | [] => false
     | c :: rest =>
       decide (c = '5') ||
         (isSepDash c &&
           (match rest with
            | d :: _ => decide (d = '5')
            | [] => false)))

/-- Test of `/gpt[-_ ]?5/i` (and of `/gpt[-_ ]?5(?:[._-]\d+)?/i`). -/
def gpt5Test (s : String) : Bool :=
  scanAny gpt5At (lowerChars s)

/-- After a `gemini` occurrence, can `pro` be reached through characters
matched by `.` (anything except a line terminator)? -/
def proReach : List Char → Bool
  | [] => false
  | c :: rest =>
      ['p', 'r', 'o'].isPrefixOf (c :: rest) || (!isLineTerm c && proReach rest)

/-- Match of `gemini.*pro` anchored at this position. -/
def geminiProAt (cs : List Char) : Bool :=
  ['g', 'e', 'm', 'i', 'n', 'i'].isPrefixOf cs && proReach (cs.drop 6)

/-- Test of `/gemini.*pro/i`. -/
def geminiProTest (s : String) : Bool :=
  scanAny geminiProAt (lowerChars s)

/-- Source `penaltyPatterns`: the pre-release/experimental/beta markers. -/
def penaltyPatterns : List (String → Bool) :=
  [subTest "preview", subTest "experimental", subTest "beta"]

/-- Source `isUnstableModelId`. -/
def isUnstableModelId (id : String) : Bool :=
  penaltyPatterns.any (fun re => re id)

/-- Source `isKnownMajorProvider`: `/openai|anthropic|google/i` test. -/
def isKnownMajorProvider (provider : String) : Bool :=
  subTest "openai" provider || subTest "anthropic" provider ||
    subTest "google" provider

/-- Greedy match of the capture body `\d+(?:[._-]\d+)*` starting at a
position whose head is a digit: returns the matched characters and the
rest of the input.  Greedy matching is exact here because nothing in the
group can be given back usefully (see the matcher comments below). -/
def verGo : List Char → List Char × List Char
  | [] => ([], [])
  | [c] => if isDig c then ([c], []) else ([], [c])
  | c :: d :: rest =>
    if isDig c then
      let r := verGo (d :: rest)
      (c :: r.1, r.2)
    else if isVerSep c && isDig d then
      let r := verGo (d :: rest)
      (c :: r.1, r.2)
    else ([], c :: d :: rest)

/-- Consume one character of the class if present (models an optional
character class such as `[-_ ]?` or `v?` whose class is disjoint from the
first characters the remainder of the pattern can match, so no
backtracking is ever needed). -/
def optConsume (p : Char → Bool) : List Char → List Char
  | [] => []
  | c :: rest => if p c then rest else c :: rest

/-- Is the head of the list a digit? -/
def headIsDigit : List Char → Bool
  | [] => false
  | c :: _ => isDig c

/-- Match of `[-_ ]?v?(\d+(?:[._-]\d+)*)` anchored at this position:
returns the capture and the rest on success. -/
def capAfter (cs : List Char) : Option (List Char × List Char) :=
  let r1 := optConsume isSepDash cs
  let r2 := optConsume (fun c => decide (c = 'v')) r1
  if headIsDigit r2 then some (verGo r2) else none

/-- Match of `lit[-_ ]?v?(\d+(?:[._-]\d+)*)` anchored at this position
(used with `lit` one of the family tokens or `gpt`). -/
def famVerAt (lit : List Char) (cs : List Char) : Option (List Char) :=
  if lit.isPrefixOf cs then
    (capAfter (cs.drop lit.length)).map (fun r => r.1)
  else none

/-- The literal `claude` as characters. -/
def claudeLit : List Char := ['c', 'l', 'a', 'u', 'd', 'e']

/-- Match of `claude[-_ ]?fam[-_ ]?v?(\d+(?:[._-]\d+)*)` anchored at this
position (the source's "new style" pattern m2). -/
def claudeFamVerAt (fam : List Char) (cs : List Char) : Option (List Char) :=
  if claudeLit.isPrefixOf cs then
    let r1 := optConsume isSepDash (cs.drop 6)
    if fam.isPrefixOf r1 then
      (capAfter (r1.drop fam.length)).map (fun r => r.1)
    else none
  else none

/-- Match of `claude[-_ ]?v?(\d+(?:[._-]\d+)*)[-_ ]?fam` anchored at this
position (the source's pattern m1).  The greedy capture never needs to
backtrack: every shorter capture leaves the position on a digit or a
separator, where neither `[-_ ]?` plus the family literal can match. -/
def claudeVerFamAt (fam : List Char) (cs : List Char) : Option (List Char) :=
  if claudeLit.isPrefixOf cs then
    match capAfter (cs.drop 6) with
    | some r =>
      let rest := optConsume isSepDash r.2
      if fam.isPrefixOf rest then some r.1 else none
    | none => none
  else none

/-- Leftmost-match driver for `String.prototype.match`: try the anchored
matcher at each position from the left and return the first capture. -/
def scanFirst (f : List Char → Option (List Char)) : List Char → Option (List Char)
  | [] => f []
  | c :: rest =>
    match f (c :: rest) with
    | some r => some r
    | none => scanFirst f rest

/-- JavaScript `String.prototype.trim` over character lists. -/
def jsTrim (s : List Char) : List Char :=
  ((s.dropWhile isJsSpace).reverse.dropWhile isJsSpace).reverse

/-- Accumulator for `split(/[._-]/).filter(Boolean)`: maximal runs of
non-separator characters, in order (`cur` holds the current run reversed). -/
def splitSepsGo (cur : List Char) : List Char → List (List Char)
  | [] => if cur.isEmpty then [] else [cur.reverse]
  | c :: rest =>
    if isVerSep c then
      if cur.isEmpty then splitSepsGo [] rest
      else cur.reverse :: splitSepsGo [] rest
    else splitSepsGo (c :: cur) rest

/-- The source's `v.split(/[._-]/).filter(Boolean)`. -/
def splitSeps (s : List Char) : List (List Char) :=
  splitSepsGo [] s

/-- Numeric value of a digit run. -/
def digitsToNat (ds : List Char) : Nat :=
  ds.foldl (fun a c => a * 10 + (c.toNat - 48)) 0

/-- JavaScript `Number.parseInt(s, 10)`: skip whitespace, optional sign,
then a maximal digit run; `none` models `NaN`. -/
def jsParseInt (s : List Char) : Option Int :=
  match s.dropWhile isJsSpace with
  | '-' :: r =>
    let ds := r.takeWhile isDig
    if ds.isEmpty then none else some (-(digitsToNat ds : Int))
  | '+' :: r =>
    let ds := r.takeWhile isDig
    if ds.isEmpty then none else some ((digitsToNat ds : Int))
  | t =>
    let ds := t.takeWhile isDig
    if ds.isEmpty then none else some ((digitsToNat ds : Int))

/-- Source `sanitizeVersionString`: rejects empty strings, bare 4-plus
digit runs, and multi-part strings whose leading numeric part is a year
(1900 or later); otherwise returns the trimmed string. -/
def sanitizeVersionString (v : List Char) : Option (List Char) :=
  if v.isEmpty then none
  else
    let s := jsTrim v
    if s.isEmpty then none
    else if (4 ≤ s.length ∧ s.all isDig = true) ∧ s.any isVerSep = false then
      none
    else
      let parts := splitSeps s
      if 2 ≤ parts.length then
        match parts.head? with
        | some p =>
          match jsParseInt p with
          | some n => if 1900 ≤ n then none else some s
          | none => some s
        | none => some s
      else some s

/-- Test of `/^(19|20)\d{6}$/`: an 8-character year-like date token. -/
def yearLikeToken (p : List Char) : Bool :=
  decide (p.length = 8) &&
    (['1', '9'].isPrefixOf p || ['2', '0'].isPrefixOf p) &&
    (p.drop 2).all isDig

/-- Loop body of source `parseVersionParts`: accumulate numeric parts,
breaking at a year-like token once at least one part was accepted, and
skipping parts that do not parse to a number. -/
def versionGo (out : List Int) : List (List Char) → List Int
  | [] => out
  | p :: rest =>
    if 0 < out.length ∧ yearLikeToken p = true ∧ (jsParseInt (p.take 4)).isSome = true then
      out
    else
      match jsParseInt p with
      | none => versionGo out rest
      | some n => versionGo (out ++ [n]) rest

/-- Source `parseVersionParts`. -/
def parseVersionParts (v : List Char) : List Int :=
  versionGo [] (splitSeps v)

/-- Comparison tail when the first vector is exhausted: each remaining
element of the second vector is compared against 0. -/
def cmpNilA : List Int → Int
  | [] => 0
  | b :: bs1 => if 0 = b then cmpNilA bs1 else if 0 > b then 1 else -1

/-- Comparison tail when the second vector is exhausted: each remaining
element of the first vector is compared against 0. -/
def cmpNilB : List Int → Int
  | [] => 0
  | a :: as1 => if a = 0 then cmpNilB as1 else if a > 0 then 1 else -1

/-- Element-wise comparison loop of source `compareVersionParts` with
missing trailing elements read as 0. -/
def cmpVec : List Int → List Int → Int
  | [], bs => cmpNilA bs
  | a :: as1, [] => cmpNilB (a :: as1)
  | a :: as1, b :: bs1 => if a = b then cmpVec as1 bs1 else if a > b then 1 else -1

/-- Source `compareVersionParts` including its null handling. -/
def compareVersionParts : Option (List Int) → Option (List Int) → Int
  | none, none => 0
  | some _, none => 1
  | none, some _ => -1
  | some a, some b => cmpVec a b

/-- Source `extractClaudeFamilyVersion`: try the three patterns in order,
sanitizing each capture; a capture rejected by the sanitizer falls
through to the next pattern, exactly as the source's truthiness checks do. -/
def extractClaudeFamilyVersion (id : String) (fam : List Char) : Option (List Int) :=
  let cs := lowerChars id
  match (scanFirst (claudeVerFamAt fam) cs).bind sanitizeVersionString with
  | some v1 => some (parseVersionParts v1)
  | none =>
    match (scanFirst (claudeFamVerAt fam) cs).bind sanitizeVersionString with
    | some v2 => some (parseVersionParts v2)
    | none =>
      match (scanFirst (famVerAt fam) cs).bind sanitizeVersionString with
      | some v3 => some (parseVersionParts v3)
      | none => none

/-- Source `extractGptVersion`: `gpt[-_ ]?v?(\d+(?:[._-]\d+)*)` with the
same sanitize-then-parse pipeline. -/
def extractGptVersion (id : String) : Option (List Int) :=
  match (scanFirst (famVerAt ['g', 'p', 't']) (lowerChars id)).bind sanitizeVersionString with
  | some v => some (parseVersionParts v)
  | none => none

/-- Source `TierPatternKind`: family labels of the pattern table. -/
inductive TierPatternKind
  | claudeOpus
  | claudeSonnet
  | claudeHaiku
  | gpt5
  | geminiPro
  | geminiFlash
deriving DecidableEq

/-- Source `TierPattern`: the family label, the compiled `test` of the
pattern's regex, and the optional version extractor. -/
structure TierPattern where
  kind : TierPatternKind
  test : String → Bool
  version : Option (String → Option (List Int))

/-- The `opus` family literal as characters. -/
def opusFam : List Char := ['o', 'p', 'u', 's']

/-- The `sonnet` family literal as characters. -/
def sonnetFam : List Char := ['s', 'o', 'n', 'n', 'e', 't']

/-- The `haiku` family literal as characters. -/
def haikuFam : List Char := ['h', 'a', 'i', 'k', 'u']

/-- Source `tierPatterns`: the ordered priority table for each tier. -/
def tierPatterns : ModelTier → List TierPattern
  | .complex =>
    [⟨.claudeOpus, tokenTest "opus", some (fun id => extractClaudeFamilyVersion id opusFam)⟩,
     ⟨.gpt5, gpt5Test, some extractGptVersion⟩,
     ⟨.geminiPro, geminiProTest, none⟩]
  | .standard =>
    [⟨.claudeSonnet, tokenTest "sonnet", some (fun id => extractClaudeFamilyVersion id sonnetFam)⟩,
     ⟨.gpt5, gpt5Test, some extractGptVersion⟩,
     ⟨.geminiPro, geminiProTest, none⟩]
  | .simple =>
    [⟨.claudeHaiku, tokenTest "haiku", some (fun id => extractClaudeFamilyVersion id haikuFam)⟩,
     ⟨.geminiFlash, subTest "flash", none⟩]

/-- The candidate-id test of `bestTierPatternMatch`: the raw id or its
normalized form passes the pattern's regex. -/
def patMatches (p : TierPattern) (id : String) : Bool :=
  p.test id || p.test (normalizeModelId id)

/-- Indexed scan of the pattern list, as in source `bestTierPatternMatch`. -/
def bestGo (id : String) : Nat → List TierPattern → Option (Nat × TierPattern)
  | _, [] => none
  | idx, p :: rest =>
    if patMatches p id then some (idx, p) else bestGo id (idx + 1) rest

/-- Source `bestTierPatternMatch`: first (highest-priority) pattern of the
tier whose regex matches the raw or normalized id, with its index. -/
def bestTierPatternMatch (id : String) (tier : ModelTier) : Option (Nat × TierPattern) :=
  bestGo id 0 (tierPatterns tier)

/-- Source `scoreModelForTier`: score from the single best-priority match
only, `100 - idx * 10`, and 0 when no pattern matches. -/
def scoreModelForTier (m : CandidateModel) (tier : ModelTier) : Nat :=
  match bestTierPatternMatch m.id tier with
  | none => 0
  | some r => 100 - r.1 * 10

/-- The `provider:id` string the tie-break chain compares. -/
def providerColonId (m : CandidateModel) : List Char :=
  m.provider.data ++ ':' :: m.id.data

/-- JavaScript `<` on strings: lexicographic comparison by code unit
(code point here; the ids involved are ASCII). -/
def strLt : List Char → List Char → Bool
  | [], [] => false
  | [], _ :: _ => true
  | _ :: _, [] => false
  | a :: as1, b :: bs1 =>
    if a.toNat < b.toNat then true
    else if b.toNat < a.toNat then false
    else strLt as1 bs1

/-- The version comparison of the tie-break chain: switch to the new
candidate `m` only when both ids match the same pattern family, that
family has a version extractor, and the new candidate's extracted version
is strictly greater; in every other case (including a strictly smaller
version) the chain falls through to the later tie-breakers. -/
def versionSwitch (tier : ModelTier) (best m : CandidateModel) : Bool :=
  match bestTierPatternMatch best.id tier, bestTierPatternMatch m.id tier with
  | some ra, some rb =>
    if ra.2.kind = rb.2.kind then
      match ra.2.version with
      | some ver => decide (0 < compareVersionParts (ver m.id) (ver best.id))
      | none => false
    else false
  | _, _ => false

/-- Tie-break chain of source `resolveBestAvailable`, applied when the new
candidate `m` ties the running best: stability first, then the version
switch, then known-provider, then the lexicographic fallback. -/
def tieBreak (tier : ModelTier) (best m : CandidateModel) : CandidateModel :=
  if isUnstableModelId best.id ≠ isUnstableModelId m.id then
    if isUnstableModelId best.id = true ∧ isUnstableModelId m.id = false then m else best
  else if versionSwitch tier best m then m
  else if isKnownMajorProvider best.provider ≠ isKnownMajorProvider m.provider then
    if isKnownMajorProvider best.provider = false ∧ isKnownMajorProvider m.provider = true then m
    else best
  else if strLt (providerColonId m) (providerColonId best) then m else best

/-- One iteration of the `for (const m of available)` loop of source
`resolveBestAvailable`.  The state is `none` before the first candidate
(`best = null`, `bestScore = -Infinity`, so any score wins), and
`some (best, bestScore)` afterwards. -/
def stepResolve (tier : ModelTier) (st : Option (CandidateModel × Nat)) (m : CandidateModel) :
    Option (CandidateModel × Nat) :=
  let s := scoreModelForTier m tier
  match st with
  | none => some (m, s)
  | some (best, bestScore) =>
    if bestScore < s then some (m, s)
    else if s = bestScore then some (tieBreak tier best m, bestScore)
    else some (best, bestScore)

/-- Source `resolveBestAvailable` with the registry pool passed
explicitly: error on an empty pool, otherwise a linear pass with the
tie-break chain, with the `best ?? available[0]` fallback. -/
def resolveBestAvailable (tier : ModelTier) (available : List CandidateModel) :
    Except String CandidateModel :=
  if available.isEmpty then
    .error "No available models found in model registry."
  else
    match available.foldl (stepResolve tier) none with
    | some r => .ok r.1
    | none =>
      match available with
      | m :: _ => .ok m
      | [] => .error "No available models found in model registry."

/-- Source `SelectModelInput` (the fields the selection logic reads; the
debugging-only `userMessage` is carried along, `hints` is never read). -/
structure SelectModelInput where
  tier : ModelTier
  thinkingLevel : Option ThinkingLevel := none
  userMessage : Option String := none

/-- Source `SelectedModel`. -/
structure SelectedModel where
  model : CandidateModel
  modelId : String
  tier : ModelTier
  thinkingLevel : ThinkingLevel
deriving DecidableEq

/-- Source `selectSubagentModel` with the registry pool passed
explicitly. -/
def selectSubagentModel (input : SelectModelInput) (available : List CandidateModel) :
    Except String SelectedModel :=
  let tier := input.tier
  let thinkingLevel := input.thinkingLevel.getD (tierToThinkingLevel tier)
  match resolveBestAvailable tier available with
  | .error e => .error e
  | .ok model => .ok ⟨model, model.id, tier, thinkingLevel⟩

/-- A digit is not JavaScript whitespace. -/
theorem isDig_not_space {c : Char} (h : isDig c = true) : isJsSpace c = false := by
  have hd := of_decide_eq_true h
  rcases hv : isJsSpace c with _ | _
  · rfl
  · exfalso
    have := of_decide_eq_true hv
    omega

/-- A digit is not a version separator. -/
theorem isDig_not_verSep {c : Char} (h : isDig c = true) : isVerSep c = false := by
  have hd := of_decide_eq_true h
  rcases hv : isVerSep c with _ | _
  · rfl
  · exfalso
    have hc := of_decide_eq_true hv
    rcases hc with h1 | h1 | h1 <;> subst h1 <;> revert hd <;> decide

/-- dropWhile is the identity when no element satisfies the predicate. -/
theorem dropWhile_eq_self_of_none {p : Char → Bool} :
    ∀ l : List Char, (∀ c ∈ l, p c = false) → l.dropWhile p = l := by
  intro l h
  cases l with
  | nil => rfl
  | cons c r => simp [List.dropWhile, h c (List.mem_cons_self c r)]

/-- jsTrim is the identity on all-digit strings. -/
theorem jsTrim_eq_self_of_digits {l : List Char} (h : l.all isDig = true) :
    jsTrim l = l := by
  have hmem : ∀ c ∈ l, isDig c = true := List.all_eq_true.mp h
  have h1 : l.dropWhile isJsSpace = l :=
    dropWhile_eq_self_of_none l (fun c hc => isDig_not_space (hmem c hc))
  have h2 : l.reverse.dropWhile isJsSpace = l.reverse :=
    dropWhile_eq_self_of_none l.reverse
      (fun c hc => isDig_not_space (hmem c (List.mem_reverse.mp hc)))
  unfold jsTrim
  rw [h1, h2, List.reverse_reverse]

/-- The lexicographic string order is asymmetric. -/
theorem strLt_asymm : ∀ a b : List Char, strLt a b = true → strLt b a = false := by
  intro a
  induction a with
  | nil =>
    intro b _
    cases b <;> rfl
  | cons x xs ih =>
    intro b h
    cases b with
    | nil => cases h
    | cons y ys =>
      unfold strLt at h ⊢
      by_cases h1 : x.toNat < y.toNat
      · have h2 : ¬ y.toNat < x.toNat := by omega
        simp [h1, h2]
      · by_cases h2 : y.toNat < x.toNat
        · simp [h1, h2] at h
        · simp [h1, h2] at h ⊢
          exact ih ys h

/-- One loop iteration of the resolver never clears the running best. -/
theorem stepResolve_ne_none (tier : ModelTier) (st : Option (CandidateModel × Nat))
    (m : CandidateModel) : stepResolve tier st m ≠ none := by
  rcases st with _ | ⟨b, bs⟩
  · simp [stepResolve]
  · simp only [stepResolve]
    split
    · simp
    · split <;> simp

/-- The resolver's fold never clears the running best. -/
theorem foldl_stepResolve_ne_none (tier : ModelTier) :
    ∀ (l : List CandidateModel) (st : Option (CandidateModel × Nat)),
      st ≠ none → l.foldl (stepResolve tier) st ≠ none := by
  intro l
  induction l with
  | nil => intro st h; exact h
  | cons m rest ih =>
    intro st _
    exact ih (stepResolve tier st m) (stepResolve_ne_none tier st m)

/-- The tie-break chain always returns one of its two arguments. -/
theorem tieBreak_eq_or (tier : ModelTier) (a b : CandidateModel) :
    tieBreak tier a b = a ∨ tieBreak tier a b = b := by
  unfold tieBreak
  split_ifs <;> simp

/-- Case analysis of one resolver iteration: the new running best is the
new candidate, the old one, or the tie-break of the two. -/
theorem stepResolve_some_cases (tier : ModelTier) (st : Option (CandidateModel × Nat))
    (m c : CandidateModel) (s : Nat) (h : stepResolve tier st m = some (c, s)) :
    c = m ∨ ∃ b bs, st = some (b, bs) ∧ (c = b ∨ c = tieBreak tier b m) := by
  rcases st with _ | ⟨b, bs⟩
  · simp only [stepResolve, Option.some.injEq, Prod.mk.injEq] at h
    exact Or.inl h.1.symm
  · simp only [stepResolve] at h
    split at h
    · simp only [Option.some.injEq, Prod.mk.injEq] at h
      exact Or.inl h.1.symm
    · split at h
      · simp only [Option.some.injEq, Prod.mk.injEq] at h
        exact Or.inr ⟨b, bs, rfl, Or.inr h.1.symm⟩
      · simp only [Option.some.injEq, Prod.mk.injEq] at h
        exact Or.inr ⟨b, bs, rfl, Or.inl h.1.symm⟩

/-- Whatever the fold returns as running best came from the seed or from
the list. -/
theorem foldl_stepResolve_mem (tier : ModelTier) :
    ∀ (l : List CandidateModel) (st : Option (CandidateModel × Nat))
      (c : CandidateModel) (s : Nat),
      l.foldl (stepResolve tier) st = some (c, s) →
      (∃ s0, st = some (c, s0)) ∨ c ∈ l := by
  intro l
  induction l with
  | nil =>
    intro st c s h
    exact Or.inl ⟨s, h⟩
  | cons m rest ih =>
    intro st c s h
    rcases ih (stepResolve tier st m) c s h with ⟨s0, hst⟩ | hmem
    · rcases stepResolve_some_cases tier st m c s0 hst with rfl | ⟨b, bs, hstq, hc⟩
      · exact Or.inr (List.mem_cons_self _ _)
      · rcases hc with rfl | rfl
        · exact Or.inl ⟨bs, hstq⟩
        · rcases tieBreak_eq_or tier b m with he | he
          · rw [he]; exact Or.inl ⟨bs, hstq⟩
          · rw [he]; exact Or.inr (List.mem_cons_self m rest)
    · exact Or.inr (List.mem_cons.mpr (Or.inr hmem))

/-- A successful resolution picks an element of the pool. -/
theorem resolve_ok_mem (tier : ModelTier) (pool : List CandidateModel)
    (c : CandidateModel) (h : resolveBestAvailable tier pool = .ok c) : c ∈ pool := by
  rcases pool with _ | ⟨m, rest⟩
  · simp [resolveBestAvailable] at h
  · rcases hfold : (m :: rest).foldl (stepResolve tier) none with _ | ⟨b, bs⟩
    · simp [resolveBestAvailable, hfold] at h
      subst h
      exact List.mem_cons_self m rest
    · simp [resolveBestAvailable, hfold] at h
      subst h
      rcases foldl_stepResolve_mem tier (m :: rest) none b bs hfold with ⟨s0, hst⟩ | hmem
      · cases hst
      · exact hmem

/-- A non-empty pool always resolves successfully. -/
theorem resolve_nonempty_ok (tier : ModelTier) (pool : List CandidateModel)
    (h : pool ≠ []) : ∃ c, resolveBestAvailable tier pool = .ok c := by
  rcases pool with _ | ⟨m, rest⟩
  · exact absurd rfl h
  · have hne : (m :: rest).foldl (stepResolve tier) none ≠ none := by
      show rest.foldl (stepResolve tier) (stepResolve tier none m) ≠ none
      exact foldl_stepResolve_ne_none tier rest _ (stepResolve_ne_none tier none m)
    rcases hfold : (m :: rest).foldl (stepResolve tier) none with _ | ⟨b, bs⟩
    · exact absurd hfold hne
    · exact ⟨b, by simp [resolveBestAvailable, hfold]⟩

/-- Evaluation of the resolver on a two-candidate pool with equal scores:
the result is the tie-break of the two, first candidate as running best. -/
theorem resolve_pair_eq (tier : ModelTier) (x y : CandidateModel)
    (h : scoreModelForTier y tier = scoreModelForTier x tier) :
    resolveBestAvailable tier [x, y] = .ok (tieBreak tier x y) := by
  have hfold : [x, y].foldl (stepResolve tier) none =
      some (tieBreak tier x y, scoreModelForTier x tier) := by
    show stepResolve tier (stepResolve tier none x) y =
      some (tieBreak tier x y, scoreModelForTier x tier)
    simp [stepResolve, h]
  simp [resolveBestAvailable, hfold]

/-- The indexed pattern scan returns none when no pattern matches. -/
theorem bestGo_of_none (id : String) :
    ∀ (ps : List TierPattern) (k : Nat), (∀ p ∈ ps, patMatches p id = false) →
      bestGo id k ps = none := by
  intro ps
  induction ps with
  | nil => intro k _; rfl
  | cons p rest ih =>
    intro k h
    simp only [bestGo, h p (List.mem_cons_self _ _), Bool.false_eq_true, if_false]
    exact ih (k + 1) (fun q hq => h q (List.mem_cons.mpr (Or.inr hq)))

/-- The indexed pattern scan returns the least matching index, offset by
the starting counter. -/
theorem bestGo_of_least (id : String) :
    ∀ (ps : List TierPattern) (i : Nat) (hi : i < ps.length) (k : Nat),
      patMatches (ps.get ⟨i, hi⟩) id = true →
      (∀ (j : Nat) (hj : j < i), patMatches (ps.get ⟨j, lt_trans hj hi⟩) id = false) →
      bestGo id k ps = some (k + i, ps.get ⟨i, hi⟩) := by
  intro ps
  induction ps with
  | nil => intro i hi; exact absurd hi (by simp)
  | cons p rest ih =>
    intro i hi k hmatch hleast
    cases i with
    | zero =>
      simp only [List.get] at hmatch ⊢
      simp only [bestGo, hmatch, if_true, Nat.add_zero]
    | succ n =>
      have hp : patMatches p id = false := hleast 0 (Nat.succ_pos n)
      simp only [bestGo, hp, Bool.false_eq_true, if_false]
      have hi2 : n < rest.length := Nat.lt_of_succ_lt_succ hi
      have hrec := ih n hi2 (k + 1) hmatch
        (fun j hj => hleast (j + 1) (Nat.succ_lt_succ hj))
      rw [hrec]
      have hk : k + 1 + n = k + (n + 1) := by omega
      rw [hk]
      rfl

/-- Claim C1: for every candidate model and every tier, the candidate's
score equals `100 - 10 * i`, where `i` is the index of the
highest-priority (lowest-index) pattern in that tier's ordered pattern
table that matches the candidate's id (tested against both the raw id and
its lowercased, whitespace-stripped normalization), and equals 0 when no
pattern matches; scores from multiple matching patterns are never
summed. -/
theorem scoreModelForTier_single_best_priority (tier : ModelTier) (m : CandidateModel) :
    (∀ (i : Nat) (hi : i < (tierPatterns tier).length),
       patMatches ((tierPatterns tier).get ⟨i, hi⟩) m.id = true →
       (∀ (j : Nat) (hj : j < i),
          patMatches ((tierPatterns tier).get ⟨j, lt_trans hj hi⟩) m.id = false) →
       scoreModelForTier m tier = 100 - 10 * i) ∧
    ((∀ p ∈ tierPatterns tier, patMatches p m.id = false) →
       scoreModelForTier m tier = 0) := by
  constructor
  · intro i hi hmatch hleast
    have hb := bestGo_of_least m.id (tierPatterns tier) i hi 0 hmatch hleast
    unfold scoreModelForTier bestTierPatternMatch
    rw [hb]
    simp only
    omega
  · intro h
    have hb := bestGo_of_none m.id (tierPatterns tier) 0 h
    unfold scoreModelForTier bestTierPatternMatch
    rw [hb]

/-- Witness for C1: `gpt-5` under the complex tier matches the pattern at
index 1 (and not the index-0 opus pattern), hence scores 90. -/
theorem scoreModelForTier_single_best_priority_witness :
    scoreModelForTier ⟨"openai", "gpt-5"⟩ .complex = 100 - 10 * 1 :=
  (scoreModelForTier_single_best_priority .complex ⟨"openai", "gpt-5"⟩).1 1 (by decide)
    (by decide) (by decide)

/-- Claim C3: selection fails with the no-models error if and only if the
candidate pool is empty; every non-empty pool (whatever its ids) resolves
to some model without erroring. -/
theorem resolve_error_iff_empty_pool (tier : ModelTier) (pool : List CandidateModel) :
    (pool = [] →
       resolveBestAvailable tier pool = .error "No available models found in model registry.") ∧
    (pool ≠ [] → ∃ m, resolveBestAvailable tier pool = .ok m) := by
  constructor
  · intro h
    subst h
    rfl
  · exact resolve_nonempty_ok tier pool

/-- Witness for C3 at a concrete tier and pools. -/
theorem resolve_error_iff_empty_pool_witness :
    resolveBestAvailable .complex [] = .error "No available models found in model registry." ∧
    ∃ m, resolveBestAvailable .complex [⟨"p", "m"⟩] = .ok m :=
  ⟨(resolve_error_iff_empty_pool .complex []).1 rfl,
   (resolve_error_iff_empty_pool .complex [⟨"p", "m"⟩]).2 (by simp)⟩

/-- Claim C10: selection is a pure function of the tier and the candidate
pool: repeated invocations on the same inputs give the identical result,
and equal inputs give equal results, for the resolver and the full
selector alike. -/
theorem selection_deterministic (tier : ModelTier) (pool : List CandidateModel) :
    resolveBestAvailable tier pool = resolveBestAvailable tier pool ∧
    (∀ pool2, pool = pool2 →
       resolveBestAvailable tier pool = resolveBestAvailable tier pool2) ∧
    (∀ (input input2 : SelectModelInput) (pool2 : List CandidateModel),
       input = input2 → pool = pool2 →
       selectSubagentModel input pool = selectSubagentModel input2 pool2) := by
  refine ⟨rfl, ?_, ?_⟩
  · intro pool2 h
    rw [h]
  · intro input input2 pool2 h1 h2
    rw [h1, h2]

/-- Witness for C10 at concrete inputs. -/
theorem selection_deterministic_witness :
    selectSubagentModel ⟨.complex, none, none⟩ [⟨"p", "m"⟩] =
      selectSubagentModel ⟨.complex, none, none⟩ [⟨"p", "m"⟩] :=
  ((selection_deterministic .complex [⟨"p", "m"⟩]).2.2 ⟨.complex, none, none⟩
    ⟨.complex, none, none⟩ [⟨"p", "m"⟩] rfl rfl)

/-- Claim C4: on the pool `claude-3-opus-20240229`,
`claude-opus-4-5-20251101`, `gpt-5.2` (in that order) under the complex
tier, both opus ids match the highest-priority opus pattern, version
extraction yields `[4, 5]` for the new-style id and `[3]` for the old
format, and the higher version wins the selection. -/
theorem example_scenario_complex_opus :
    resolveBestAvailable .complex
        [⟨"anthropic", "claude-3-opus-20240229"⟩,
         ⟨"anthropic", "claude-opus-4-5-20251101"⟩,
         ⟨"openai", "gpt-5.2"⟩] =
      .ok ⟨"anthropic", "claude-opus-4-5-20251101"⟩ ∧
    extractClaudeFamilyVersion "claude-opus-4-5-20251101" opusFam = some [4, 5] ∧
    extractClaudeFamilyVersion "claude-3-opus-20240229" opusFam = some [3] ∧
    0 < compareVersionParts (some [4, 5]) (some [3]) :=
  ⟨rfl, rfl, rfl, by decide⟩

/-- Claim C2 (code bug evidence): two equally-scored, stable candidates
whose ids both match the opus family (which has a version extractor),
with extracted versions `[4, 10]` and `[4, 5]`.  When the higher-version
candidate appears first in the pool, the resolver falls through from the
version comparison (which only acts when the *new* candidate is strictly
greater) to the lexicographic fallback and returns the *lower*-version
candidate, so the version preference of the claim (and of the source's
own tie-breaker comment) is order-dependent. -/
theorem version_tiebreak_order_dependent :
    scoreModelForTier ⟨"anthropic", "claude-opus-4-10"⟩ .complex =
      scoreModelForTier ⟨"anthropic", "claude-opus-4-05"⟩ .complex ∧
    isUnstableModelId "claude-opus-4-10" = false ∧
    isUnstableModelId "claude-opus-4-05" = false ∧
    extractClaudeFamilyVersion "claude-opus-4-10" opusFam = some [4, 10] ∧
    extractClaudeFamilyVersion "claude-opus-4-05" opusFam = some [4, 5] ∧
    compareVersionParts (some [4, 10]) (some [4, 5]) = 1 ∧
    resolveBestAvailable .complex
        [⟨"anthropic", "claude-opus-4-10"⟩, ⟨"anthropic", "claude-opus-4-05"⟩] =
      .ok ⟨"anthropic", "claude-opus-4-05"⟩ ∧
    resolveBestAvailable .complex
        [⟨"anthropic", "claude-opus-4-05"⟩, ⟨"anthropic", "claude-opus-4-10"⟩] =
      .ok ⟨"anthropic", "claude-opus-4-10"⟩ :=
  ⟨rfl, rfl, rfl, rfl, rfl, rfl, rfl, rfl⟩

/-- Claim C5: among two equally-scored candidates of which exactly one id
matches a penalty pattern, the stable one is selected, in either pool
order. -/
theorem stability_tiebreak_prefers_stable (tier : ModelTier) (x y : CandidateModel)
    (hscore : scoreModelForTier x tier = scoreModelForTier y tier)
    (hx : isUnstableModelId x.id = false)
    (hy : isUnstableModelId y.id = true) :
    resolveBestAvailable tier [x, y] = .ok x ∧
    resolveBestAvailable tier [y, x] = .ok x := by
  constructor
  · rw [resolve_pair_eq tier x y hscore.symm]
    simp [tieBreak, hx, hy]
  · rw [resolve_pair_eq tier y x hscore]
    simp [tieBreak, hx, hy]

/-- Witness for C5: a stable and a preview-marked opus id, both scoring
100 under the complex tier. -/
theorem stability_tiebreak_prefers_stable_witness :
    resolveBestAvailable .complex
        [⟨"anthropic", "claude-opus-4-5"⟩, ⟨"anthropic", "claude-opus-4-5-preview"⟩] =
      .ok ⟨"anthropic", "claude-opus-4-5"⟩ ∧
    resolveBestAvailable .complex
        [⟨"anthropic", "claude-opus-4-5-preview"⟩, ⟨"anthropic", "claude-opus-4-5"⟩] =
      .ok ⟨"anthropic", "claude-opus-4-5"⟩ :=
  stability_tiebreak_prefers_stable .complex ⟨"anthropic", "claude-opus-4-5"⟩
    ⟨"anthropic", "claude-opus-4-5-preview"⟩ (by decide) (by decide) (by decide)

/-- Claim C6 counterexample: two candidates that match no complex-tier
pattern, where the lexicographically smaller `provider:id` belongs to an
unrecognized provider: the known-provider tie-breaker runs before the
lexicographic fallback, so the lexicographically larger candidate is
selected. -/
theorem fallback_lex_counterexample :
    bestTierPatternMatch "mymodel" .complex = none ∧
    strLt (providerColonId ⟨"aaa", "mymodel"⟩) (providerColonId ⟨"anthropic", "mymodel"⟩) = true ∧
    resolveBestAvailable .complex [⟨"aaa", "mymodel"⟩, ⟨"anthropic", "mymodel"⟩] =
      .ok ⟨"anthropic", "mymodel"⟩ :=
  ⟨rfl, rfl, rfl⟩

/-- Claim C6 as amended: among two candidates matching no tier pattern
that agree on the stability flag and on the known-major-provider flag,
the one with the lexicographically smaller `provider:id` string is
selected, in either pool order. -/
theorem fallback_lex_when_flags_equal (tier : ModelTier) (x y : CandidateModel)
    (hmx : bestTierPatternMatch x.id tier = none)
    (hmy : bestTierPatternMatch y.id tier = none)
    (hstab : isUnstableModelId x.id = isUnstableModelId y.id)
    (hknown : isKnownMajorProvider x.provider = isKnownMajorProvider y.provider)
    (hlex : strLt (providerColonId x) (providerColonId y) = true) :
    resolveBestAvailable tier [x, y] = .ok x ∧
    resolveBestAvailable tier [y, x] = .ok x := by
  have hsx : scoreModelForTier x tier = 0 := by simp [scoreModelForTier, hmx]
  have hsy : scoreModelForTier y tier = 0 := by simp [scoreModelForTier, hmy]
  have hvxy : versionSwitch tier x y = false := by simp [versionSwitch, hmx]
  have hvyx : versionSwitch tier y x = false := by simp [versionSwitch, hmy]
  have hlex2 : strLt (providerColonId y) (providerColonId x) = false := strLt_asymm _ _ hlex
  constructor
  · rw [resolve_pair_eq tier x y (by rw [hsx, hsy])]
    simp [tieBreak, hstab, hknown, hvxy, hlex2]
  · rw [resolve_pair_eq tier y x (by rw [hsx, hsy])]
    simp [tieBreak, hstab, hknown, hvyx, hlex]

/-- Witness for the amended C6: two unmatched, stable, unknown-provider
candidates; the lexicographically smaller `provider:id` wins both ways. -/
theorem fallback_lex_when_flags_equal_witness :
    resolveBestAvailable .complex [⟨"aaa", "foo"⟩, ⟨"aab", "foo"⟩] = .ok ⟨"aaa", "foo"⟩ ∧
    resolveBestAvailable .complex [⟨"aab", "foo"⟩, ⟨"aaa", "foo"⟩] = .ok ⟨"aaa", "foo"⟩ :=
  fallback_lex_when_flags_equal .complex ⟨"aaa", "foo"⟩ ⟨"aab", "foo"⟩ rfl rfl rfl rfl rfl

/-- Claim C8: the resulting thinkingLevel equals the caller-supplied
override when one is provided and otherwise the fixed mapping
complex to high, standard to medium, simple to low; the candidate pool
has no influence on this value. -/
theorem thinkingLevel_override_then_mapping :
    tierToThinkingLevel .complex = .high ∧
    tierToThinkingLevel .standard = .medium ∧
    tierToThinkingLevel .simple = .low ∧
    ∀ (input : SelectModelInput) (pool : List CandidateModel) (r : SelectedModel),
      selectSubagentModel input pool = .ok r →
      r.thinkingLevel = input.thinkingLevel.getD (tierToThinkingLevel input.tier) := by
  refine ⟨rfl, rfl, rfl, ?_⟩
  intro input pool r h
  simp only [selectSubagentModel] at h
  rcases hres : resolveBestAvailable input.tier pool with e | m
  · rw [hres] at h
    cases h
  · rw [hres] at h
    simp only [Except.ok.injEq] at h
    rw [← h]

/-- Witness for C8: a caller-supplied low override under the complex tier
is returned unchanged. -/
theorem thinkingLevel_override_then_mapping_witness :
    (⟨⟨"p", "m"⟩, "m", .complex, .low⟩ : SelectedModel).thinkingLevel =
      (some ThinkingLevel.low).getD (tierToThinkingLevel .complex) :=
  thinkingLevel_override_then_mapping.2.2.2 ⟨.complex, some .low, none⟩ [⟨"p", "m"⟩]
    ⟨⟨"p", "m"⟩, "m", .complex, .low⟩ rfl

/-- Claim C9: a successful selection returns a model drawn from the
supplied pool, and the result's modelId field equals that model's id. -/
theorem selection_returns_pool_element (input : SelectModelInput)
    (pool : List CandidateModel) (r : SelectedModel)
    (h : selectSubagentModel input pool = .ok r) :
    r.model ∈ pool ∧ r.modelId = r.model.id := by
  simp only [selectSubagentModel] at h
  rcases hres : resolveBestAvailable input.tier pool with e | m
  · rw [hres] at h
    cases h
  · rw [hres] at h
    simp only [Except.ok.injEq] at h
    rw [← h]
    exact ⟨resolve_ok_mem input.tier pool m hres, rfl⟩

/-- Witness for C9 at a concrete input and pool. -/
theorem selection_returns_pool_element_witness :
    (⟨⟨"p", "m"⟩, "m", .complex, .high⟩ : SelectedModel).model ∈
        ([⟨"p", "m"⟩] : List CandidateModel) ∧
    (⟨⟨"p", "m"⟩, "m", .complex, .high⟩ : SelectedModel).modelId =
      (⟨⟨"p", "m"⟩, "m", .complex, .high⟩ : SelectedModel).model.id :=
  selection_returns_pool_element ⟨.complex, none, none⟩ [⟨"p", "m"⟩]
    ⟨⟨"p", "m"⟩, "m", .complex, .high⟩ rfl

/-- jsParseInt succeeds on any list headed by a digit. -/
theorem jsParseInt_isSome_of_dig_head (c : Char) (l : List Char) (hd : isDig c = true) :
    (jsParseInt (c :: l)).isSome = true := by
  have hns : isJsSpace c = false := isDig_not_space hd
  have h1 : c ≠ '-' := by
    intro h
    subst h
    revert hd
    decide
  have h2 : c ≠ '+' := by
    intro h
    subst h
    revert hd
    decide
  unfold jsParseInt
  simp only [List.dropWhile, hns]
  split
  · next r heq =>
    exact absurd (List.cons.inj heq).1 h1
  · next r heq =>
    exact absurd (List.cons.inj heq).1 h2
  · simp [List.takeWhile, hd]

/-- Claim C7: version extraction never takes a date for a version.  First,
a bare token of four or more digits (and no separator) is rejected by the
sanitizer.  Second, a multi-part version string whose leading numeric part
is 1900 or larger is rejected by the sanitizer.  Third, part accumulation
stops at an 8-digit year-like token once at least one part has been
accepted. -/
theorem date_guard_version_extraction :
    (∀ s : List Char, s ≠ [] → s.all isDig = true → 4 ≤ s.length →
       sanitizeVersionString s = none) ∧
    (∀ (v p : List Char) (rest : List (List Char)) (n : Int),
       splitSeps (jsTrim v) = p :: rest → rest ≠ [] →
       jsParseInt p = some n → 1900 ≤ n → sanitizeVersionString v = none) ∧
    (∀ (out : List Int) (p : List Char) (rest : List (List Char)),
       out ≠ [] → yearLikeToken p = true → versionGo out (p :: rest) = out) := by
  refine ⟨?_, ?_, ?_⟩
  · intro s hne hdig hlen
    have htrim : jsTrim s = s := jsTrim_eq_self_of_digits hdig
    have hemp : s.isEmpty = false := by
      cases s with
      | nil => exact absurd rfl hne
      | cons c r => rfl
    have hsep : s.any isVerSep = false := by
      rcases hany : s.any isVerSep with _ | _
      · rfl
      · exfalso
        rcases List.any_eq_true.mp hany with ⟨c, hc, hv⟩
        rw [isDig_not_verSep (List.all_eq_true.mp hdig c hc)] at hv
        cases hv
    simp only [sanitizeVersionString, hemp, Bool.false_eq_true, if_false, htrim]
    rw [if_pos ⟨⟨hlen, hdig⟩, hsep⟩]
  · intro v p rest n hsplit hrest hparse h1900
    rcases v with _ | ⟨c, vs⟩
    · simp [jsTrim, splitSeps, splitSepsGo] at hsplit
    · rcases hs : jsTrim (c :: vs) with _ | ⟨d, ds⟩
      · rw [hs] at hsplit
        simp [splitSeps, splitSepsGo] at hsplit
      · rw [hs] at hsplit
        simp only [sanitizeVersionString, List.isEmpty_cons, Bool.false_eq_true, if_false, hs]
        by_cases hdate :
            (4 ≤ (d :: ds).length ∧ (d :: ds).all isDig = true) ∧ (d :: ds).any isVerSep = false
        · rw [if_pos hdate]
        · rw [if_neg hdate, hsplit]
          have hlen2 : 2 ≤ (p :: rest).length := by
            rcases rest with _ | ⟨q, qs⟩
            · exact absurd rfl hrest
            · simp only [List.length_cons]
              omega
          rw [if_pos hlen2]
          simp only [List.head?]
          simp only [hparse]
          rw [if_pos h1900]
  · intro out p rest hout hyear
    have hlen : 0 < out.length := by
      cases out with
      | nil => exact absurd rfl hout
      | cons a t => simp
    have hsome : (jsParseInt (p.take 4)).isSome = true := by
      have hyear2 := hyear
      simp only [yearLikeToken, Bool.and_eq_true, Bool.or_eq_true, decide_eq_true_eq] at hyear2
      rcases hyear2 with ⟨⟨_, hpref⟩, _⟩
      rcases p with _ | ⟨a, p1⟩
      · rcases hpref with hp | hp <;> simp [List.isPrefixOf] at hp
      · rcases p1 with _ | ⟨b, t⟩
        · rcases hpref with hp | hp <;> simp [List.isPrefixOf] at hp
        · have ha : isDig a = true := by
            rcases hpref with hp | hp <;> simp [List.isPrefixOf] at hp <;>
              rcases hp with ⟨rfl, -⟩ <;> decide
          exact jsParseInt_isSome_of_dig_head a (List.take 3 (b :: t)) ha
    simp only [versionGo]
    rw [if_pos ⟨hlen, hyear, hsome⟩]

/-- Witness for C7: the bare date token `20240229`, the dashed date
`2024-10-22`, and a stop of part accumulation at `20251101`. -/
theorem date_guard_version_extraction_witness :
    sanitizeVersionString ("20240229".data) = none ∧
    sanitizeVersionString ("2024-10-22".data) = none ∧
    versionGo [4, 5] ["20251101".data] = [4, 5] :=
  ⟨date_guard_version_extraction.1 "20240229".data (by decide) (by decide) (by decide),
   date_guard_version_extraction.2.1 "2024-10-22".data "2024".data ["10".data, "22".data] 2024
     (by decide) (by decide) (by decide) (by decide),
   date_guard_version_extraction.2.2 [4, 5] "20251101".data [] (by decide) (by decide)⟩
